import Mathlib

/-!
Verification of the HSCL lock-fairness benchmark harness (test_lock).

The development shallowly embeds the pure computations of
upscale_mutex.c, upscale_fairness_test.c and upscale_fairness_cgroups.c:
double arithmetic is modelled by exact rationals, C unsigned integers by
naturals, C unsigned integer division by Nat division, and every
floating-point division of the reported statistics is threaded through an
Option-valued checked division so that a some-result certifies that no
division by zero was evaluated.
-/

set_option maxHeartbeats 1000000

namespace HSCL

/-- Operation types, operation_type_t in both C files. -/
inductive OperationType where
  | insert
  | find
  | update
deriving DecidableEq, Repr

/-- Casts a list of per-thread operation counters (C unsigned long long) to
exact rationals, the way the C code casts each counter to double before
accumulating. -/
def opsQ (counts : List ℕ) : List ℚ :=
  counts.map (fun c : ℕ => (c : ℚ))

namespace Mutex

/-- Overall Jain fairness index of print_hierarchy_stats in upscale_mutex.c
(lines 693 to 701): sum_ops and sum_ops_squared accumulate the per-thread
total_operations cast to double, and the index is
(sum_ops * sum_ops) / (num_threads * sum_ops_squared). -/
def overall_fairness_index (counts : List ℕ) : ℚ :=
  let sum_ops : ℚ := (opsQ counts).sum
  let sum_ops_squared : ℚ := ((opsQ counts).map (fun x => x * x)).sum
  (sum_ops * sum_ops) / ((counts.length : ℚ) * sum_ops_squared)

/-- Numerator of the Gini computation of print_hierarchy_stats (lines 714
to 720): the double loop accumulating fabs of the difference of every
ordered pair of per-thread total_operations. -/
def gini_accum (counts : List ℕ) : ℚ :=
  ((opsQ counts).map (fun a => ((opsQ counts).map (fun b => |a - b|)).sum)).sum

/-- Gini coefficient of print_hierarchy_stats (line 721):
gini = gini / (2.0 * num_threads * sum_ops). -/
def gini (counts : List ℕ) : ℚ :=
  gini_accum counts / (2 * (counts.length : ℚ) * (opsQ counts).sum)

/-- Throughput spread of print_hierarchy_stats (lines 728 to 729):
min_ops and max_ops are seeded from threads[0] and folded over the whole
array, avg_ops is total_ops / num_threads, and the printed value is
((max_ops - min_ops) / avg_ops) * 100 when avg_ops is positive, else 0. -/
def throughput_spread (counts : List ℕ) : ℚ :=
  let ops := opsQ counts
  let min_ops : ℚ := ops.foldl min (ops.headD 0)
  let max_ops : ℚ := ops.foldl max (ops.headD 0)
  let avg_ops : ℚ := (counts.sum : ℚ) / (counts.length : ℚ)
  if 0 < avg_ops then ((max_ops - min_ops) / avg_ops) * 100 else 0

end Mutex

/-! ### Hierarchy construction, upscale_fairness_test.c -/

/-- Scheduling tree node, node_t of hfairlock.h as filled in by the
init functions of upscale_fairness_test.c: id, parent, weight, critical
section count, banned_until timestamp and slice end. -/
structure Node where
  id : ℕ
  parent : ℕ
  weight : ℕ
  cs : ℕ
  banned_until : ℕ
  slice : ℕ
deriving DecidableEq, Repr

namespace FT

/-- Flat hierarchy of init_flat_hierarchy: the root node 0 is its own
parent and every node 1..num_threads hangs directly off the root. The
banned_until field is seeded with the rdtsc value now. -/
def init_flat_hierarchy (num_threads : ℕ) (now : ℕ) : List Node :=
  (List.range (num_threads + 1)).map (fun i =>
    if i = 0 then ⟨0, 0, 0, 0, now, 0⟩ else ⟨i, 0, 0, 0, now, 0⟩)

/-- Balanced hierarchy of init_balanced_hierarchy: node i has parent
(i - 1) / 2 in C integer division for i at least 1. -/
def init_balanced_hierarchy (num_threads : ℕ) (now : ℕ) : List Node :=
  (List.range (num_threads + 1)).map (fun i =>
    if i = 0 then ⟨0, 0, 0, 0, now, 0⟩ else ⟨i, (i - 1) / 2, 0, 0, now, 0⟩)

/-- Skewed hierarchy of init_skewed_hierarchy: the first
num_threads / 2 non-root nodes form a chain, the rest are direct
children of the root. -/
def init_skewed_hierarchy (num_threads : ℕ) (now : ℕ) : List Node :=
  let mid := num_threads / 2
  (List.range (num_threads + 1)).map (fun i =>
    if i = 0 then ⟨0, 0, 0, 0, now, 0⟩
    else if i ≤ mid then ⟨i, i - 1, 0, 0, now, 0⟩
    else ⟨i, 0, 0, 0, now, 0⟩)

/-- Deep hierarchy of init_deep_hierarchy: a single linear chain. -/
def init_deep_hierarchy (num_threads : ℕ) (now : ℕ) : List Node :=
  (List.range (num_threads + 1)).map (fun i =>
    if i = 0 then ⟨0, 0, 0, 0, now, 0⟩ else ⟨i, i - 1, 0, 0, now, 0⟩)

/-- Grouped hierarchy of init_grouped_hierarchy: 4 group nodes under the
root, and thread node num_groups + 1 + i attached to group (i mod 4) + 1
with weight 1024. -/
def init_grouped_hierarchy (num_threads : ℕ) (now : ℕ) : List Node :=
  let num_groups := 4
  (List.range (num_threads + num_groups + 1)).map (fun i =>
    if i = 0 then ⟨0, 0, 0, 0, now, 0⟩
    else if i ≤ num_groups then ⟨i, 0, 0, 0, now, 0⟩
    else ⟨i, (i - (num_groups + 1)) % num_groups + 1, 1024, 0, now, 0⟩)

/-- Dispatch of init_hierarchy over the hierarchy_type selector; the
default branch of the C switch prints a warning and builds the flat
hierarchy. The boolean records whether that warning was printed. -/
def init_hierarchy (num_threads : ℕ) (t : ℤ) (now : ℕ) : List Node × Bool :=
  if t = 0 then (init_flat_hierarchy num_threads now, false)
  else if t = 1 then (init_balanced_hierarchy num_threads now, false)
  else if t = 2 then (init_skewed_hierarchy num_threads now, false)
  else if t = 3 then (init_deep_hierarchy num_threads now, false)
  else if t = 4 then (init_grouped_hierarchy num_threads now, false)
  else (init_flat_hierarchy num_threads now, true)

end FT

/-! ### Startup sequence of the two main functions, claims C3 and C6 -/

/-- Externally visible startup actions of a main function, in program
order: initializing the lock, creating the store environment, creating a
worker thread. -/
inductive Event where
  | lock_init
  | store_create
  | thread_create (i : ℕ)
  | warn_unknown
deriving DecidableEq, Repr

/-- Accepted run configuration: thread count and the three operation mix
shares, with update computed as 1 - insert - find at parse time. -/
structure RunConfig where
  num_threads : ℕ
  insert_rat : ℚ
  find_rat : ℚ
  update_rat : ℚ
deriving DecidableEq, Repr

/-- Lock variants of lock_type_t in upscale_mutex.c. -/
inductive LockType where
  | mutex
  | spin
  | rwlock
  | adaptive
deriving DecidableEq, Repr

namespace Mutex

/-- Dispatch of init_lock in upscale_mutex.c: selectors 0 to 3 choose a
lock variant and succeed; the default branch prints Unknown lock type and
returns -1, modelled as none. -/
def init_lock (t : ℤ) : Option LockType :=
  if t = 0 then some LockType.mutex
  else if t = 1 then some LockType.spin
  else if t = 2 then some LockType.rwlock
  else if t = 3 then some LockType.adaptive
  else none

/-- Result of the startup portion of main in upscale_mutex.c: the emitted
action events, the exit code, and the accepted configuration when the run
proceeds. -/
structure MainResult where
  events : List Event
  exit_code : ℤ
  config : Option (RunConfig × LockType)
deriving DecidableEq, Repr

/-- Startup sequence of main in upscale_mutex.c (lines 784 to 884):
update_ratio is 1 - insert_ratio - find_ratio; the thread count is checked
against 1..MAX_THREADS, then insert_ratio + find_ratio is checked against
1.0, then init_lock runs, then the store environment is created and the
worker threads are started. Every rejection returns 1 with no action
performed. -/
def main_startup (num_threads : ℤ) (insert_rat find_rat : ℚ) (lock_type : ℤ) :
    MainResult :=
  let update_rat := 1 - insert_rat - find_rat
  if 16 < num_threads ∨ num_threads < 1 then ⟨[], 1, none⟩
  else if 1 < insert_rat + find_rat then ⟨[], 1, none⟩
  else
    match init_lock lock_type with
    | none => ⟨[], 1, none⟩
    | some lk =>
        ⟨Event.lock_init :: Event.store_create ::
            (List.range num_threads.toNat).map Event.thread_create,
          0, some (⟨num_threads.toNat, insert_rat, find_rat, update_rat⟩, lk)⟩

end Mutex

namespace FT

/-- Result of the startup portion of main in upscale_fairness_test.c:
emitted events, exit code, accepted configuration, the hierarchy selector
actually used, and the constructed hierarchy nodes. -/
structure MainResult where
  events : List Event
  exit_code : ℤ
  config : Option RunConfig
  hier_type : ℤ
  nodes : List Node
deriving DecidableEq, Repr

/-- Startup sequence of main in upscale_fairness_test.c (lines 639 to
746): the hierarchy selector is taken from the command line only when it
lies in 0..4, otherwise FLAT is silently kept; the thread count is checked
against 1..MAX_THREADS, then insert_ratio + find_ratio against 1.0; then
the hierarchy is built, the global fair lock initialized, the store
created and the worker threads started. Every rejection returns 1 with no
action performed. -/
def main_startup (num_threads : ℤ) (insert_rat find_rat : ℚ) (type_arg : ℤ)
    (now : ℕ) : MainResult :=
  let update_rat := 1 - insert_rat - find_rat
  let ht : ℤ := if 0 ≤ type_arg ∧ type_arg ≤ 4 then type_arg else 0
  if 16 < num_threads ∨ num_threads < 1 then ⟨[], 1, none, ht, []⟩
  else if 1 < insert_rat + find_rat then ⟨[], 1, none, ht, []⟩
  else
    let built := init_hierarchy num_threads.toNat ht now
    ⟨(if built.2 then [Event.warn_unknown] else []) ++
        Event.lock_init :: Event.store_create ::
        (List.range num_threads.toNat).map Event.thread_create,
      0, some ⟨num_threads.toNat, insert_rat, find_rat, update_rat⟩, ht, built.1⟩

end FT
/-! ### Operation selection of the worker loop, claim C8 -/

/-- Operation selection of worker_thread, identical in upscale_mutex.c
(lines 497 to 507) and upscale_fairness_test.c (lines 231 to 241): draw
op_rand as rand over RAND_MAX, take Insert below insert_ratio, then Find
below insert_ratio + find_ratio, else Update. -/
def select_operation (op_rand insert_rat find_rat : ℚ) : OperationType :=
  if op_rand < insert_rat then OperationType.insert
  else if op_rand < insert_rat + find_rat then OperationType.find
  else OperationType.update

/-! ### Empty-keyspace reads, claim C9 -/

/-- Observable outcome of one perform call: the returned duration in
cycles, how many store calls were issued, and whether a diagnostic line
was printed. -/
structure OpOutcome where
  duration : ℕ
  store_calls : ℕ
  diag_printed : Bool
deriving DecidableEq, Repr

namespace FT

/-- The perform_find of upscale_fairness_test.c (lines 132 to 163): when
next_key_id is at most 1 it prints the line Error: No keys available for
find operation and returns 0 without touching the store; otherwise it
issues one ups_db_find whose duration comes from the cycle counter, and
prints a diagnostic only on an unexpected status. -/
def perform_find (next_key_id : ℕ) (store_dur : ℕ) (status_bad : Bool) : OpOutcome :=
  if next_key_id ≤ 1 then ⟨0, 0, true⟩
  else ⟨store_dur, 1, status_bad⟩

/-- The perform_update of upscale_fairness_test.c (lines 166 to 202): when
next_key_id is at most 1 it silently returns 0 without touching the store;
otherwise it issues a find and, on success, an overwriting insert. -/
def perform_update (next_key_id : ℕ) (store_dur : ℕ) (find_ok : Bool)
    (status_bad : Bool) : OpOutcome :=
  if next_key_id ≤ 1 then ⟨0, 0, false⟩
  else ⟨store_dur, if find_ok then 2 else 1, status_bad⟩

end FT

namespace Mutex

/-- The perform_find of upscale_mutex.c (lines 413 to 438): when
next_key_id is at most 1 it silently returns 0 without touching the
store; otherwise it issues one ups_db_find and prints nothing. -/
def perform_find (next_key_id : ℕ) (store_dur : ℕ) : OpOutcome :=
  if next_key_id ≤ 1 then ⟨0, 0, false⟩
  else ⟨store_dur, 1, false⟩

/-- The perform_update of upscale_mutex.c (lines 441 to 473): when
next_key_id is at most 1 it silently returns 0 without touching the
store; otherwise a find and, on success, an overwriting insert. -/
def perform_update (next_key_id : ℕ) (store_dur : ℕ) (find_ok : Bool) : OpOutcome :=
  if next_key_id ≤ 1 then ⟨0, 0, false⟩
  else ⟨store_dur, if find_ok then 2 else 1, false⟩

end Mutex

/-- Per-thread operation counters updated by the worker loop. -/
structure Counters where
  insert_count : ℕ
  find_count : ℕ
  update_count : ℕ
  total_operations : ℕ
deriving DecidableEq, Repr

/-- Bookkeeping of one worker_thread iteration after the perform call:
the per-operation counter and total_operations are incremented regardless
of the returned duration. -/
def record_operation (c : Counters) (op : OperationType) : Counters :=
  match op with
  | OperationType.insert =>
      ⟨c.insert_count + 1, c.find_count, c.update_count, c.total_operations + 1⟩
  | OperationType.find =>
      ⟨c.insert_count, c.find_count + 1, c.update_count, c.total_operations + 1⟩
  | OperationType.update =>
      ⟨c.insert_count, c.find_count, c.update_count + 1, c.total_operations + 1⟩


/-! ### The fairness report of upscale_fairness_test.c, claims C2 and C10 -/

/-- Checked rational division: none exactly when the denominator is zero,
so a some result certifies that no division by zero was evaluated. -/
def safeDiv (a b : ℚ) : Option ℚ :=
  if b = 0 then none else some (a / b)

/-- Cycle calibration constant of the harness, cycles per microsecond. -/
def CYCLE_PER_US : ℕ := 2400

namespace FT

/-- Per-thread statistics consumed by print_fairness_stats. -/
structure ThreadStats where
  total_operations : ℕ
  lock_wait_time : ℕ
  lock_acquisitions : ℕ
deriving DecidableEq, Repr

/-- Values printed by print_fairness_stats that depend on the counters:
the total, the min, max and average per-thread counts, the fairness
index, and the throughput variation where none encodes the N/A line
printed when avg_ops is not positive. -/
structure Report where
  total_ops : ℕ
  min_ops : ℚ
  max_ops : ℚ
  avg_ops : ℚ
  fairness_index : ℚ
  variation : Option ℚ
deriving DecidableEq, Repr

/-- Divisions of one row of the per-thread table of print_fairness_stats
(lines 590 to 605): ops_per_sec divides by the duration, lock_wait_ms by
the cycle constant, and avg_wait_us by lock_acquisitions times the cycle
constant behind a positivity guard. -/
def per_thread_line (duration : ℕ) (t : ThreadStats) : Option (ℚ × ℚ × ℚ) := do
  let ops_per_sec ← safeDiv (t.total_operations : ℚ) (duration : ℚ)
  let lock_wait_ms ← safeDiv (t.lock_wait_time : ℚ) ((CYCLE_PER_US * 1000 : ℕ) : ℚ)
  let avg_wait_us ←
    if 0 < t.lock_acquisitions then
      safeDiv (t.lock_wait_time : ℚ) ((t.lock_acquisitions * CYCLE_PER_US : ℕ) : ℚ)
    else some 0
  some (ops_per_sec, lock_wait_ms, avg_wait_us)

/-- The per-thread loop of print_fairness_stats, row by row. -/
def thread_table (duration : ℕ) : List ThreadStats → Option (List (ℚ × ℚ × ℚ))
  | [] => some []
  | t :: ts => do
      let w ← per_thread_line duration t
      let v ← thread_table duration ts
      some (w :: v)

/-- The computation of print_fairness_stats in upscale_fairness_test.c
(lines 580 to 637), with print_cgroups_fairness_stats of
upscale_fairness_cgroups.c computing the same guarded block at lines 692
to 706: totals are accumulated over the table, avg_ops is total over the
thread count, min and max are seeded from threads[0] and folded from
index 1 on, the fairness index is 0.0 unless total_ops is positive in
which case it is (avg * avg * n) / (total * total / n) whose denominator
is C unsigned integer division, and the variation line divides only when
avg_ops is positive, printing N/A otherwise. -/
def print_fairness_stats (threads : List ThreadStats) (duration : ℕ) : Option Report := do
  let _ ← thread_table duration threads
  let total_ops : ℕ := (threads.map (fun t => t.total_operations)).sum
  let total_lock_wait : ℕ := (threads.map (fun t => t.lock_wait_time)).sum
  let _ ← safeDiv (total_ops : ℚ) (duration : ℚ)
  let _ ← safeDiv (total_lock_wait : ℚ) ((CYCLE_PER_US * 1000 : ℕ) : ℚ)
  let counts : List ℚ := threads.map (fun t => (t.total_operations : ℚ))
  let avg_ops ← safeDiv (total_ops : ℚ) (threads.length : ℚ)
  let min_ops : ℚ := (counts.drop 1).foldl min (counts.headD 0)
  let max_ops : ℚ := (counts.drop 1).foldl max (counts.headD 0)
  let fairness_index ←
    if 0 < total_ops then
      safeDiv (avg_ops * avg_ops * (threads.length : ℚ))
        ((total_ops * total_ops / threads.length : ℕ) : ℚ)
    else some 0
  let variation ←
    if 0 < avg_ops then
      (safeDiv (max_ops - min_ops) avg_ops).map (fun v => some (v * 100))
    else some (none : Option ℚ)
  some ⟨total_ops, min_ops, max_ops, avg_ops, fairness_index, variation⟩

end FT

/-! ### Lemmas and claim theorems -/


/-! ### Helper lemmas about list sums -/

/-- Every element of an opsQ list is nonnegative. -/
lemma opsQ_nonneg (counts : List ℕ) : ∀ x ∈ opsQ counts, 0 ≤ x := by
  intro x hx
  rw [opsQ, List.mem_map] at hx
  obtain ⟨c, _, rfl⟩ := hx
  positivity

/-- Cauchy-Schwarz for a list of rationals: the square of the sum is at
most the length times the sum of squares. -/
lemma list_sq_sum_le (l : List ℚ) :
    l.sum ^ 2 ≤ (l.length : ℚ) * (l.map (fun x => x * x)).sum := by
  have h1 : l.sum = ∑ i : Fin l.length, l[(i : ℕ)] := by
    conv_lhs => rw [← List.ofFn_getElem l]
    rw [List.sum_ofFn]
  have h2 : (l.map (fun x => x * x)).sum = ∑ i : Fin l.length, l[(i : ℕ)] * l[(i : ℕ)] := by
    rw [← List.ofFn_getElem_eq_map l (fun x => x * x), List.sum_ofFn]
  rw [h1, h2]
  have h3 := sq_sum_le_card_mul_sum_sq (s := (Finset.univ : Finset (Fin l.length)))
      (f := fun i : Fin l.length => l[(i : ℕ)])
  simpa [sq, Finset.card_univ] using h3

/-- A list whose entries all equal c sums to length times c. -/
lemma sum_all_eq (l : List ℚ) (c : ℚ) (h : ∀ x ∈ l, x = c) :
    l.sum = (l.length : ℚ) * c := by
  induction l with
  | nil => simp
  | cons a t ih =>
      have ha : a = c := h a (List.mem_cons_self a t)
      have ht : ∀ x ∈ t, x = c := fun x hx => h x (List.mem_cons_of_mem a hx)
      simp [ha, ih ht]
      ring

/-- A nonnegative list with a zero sum is all zeros. -/
lemma all_zero_of_sum_zero (l : List ℚ) (h0 : ∀ x ∈ l, 0 ≤ x) (hs : l.sum = 0) :
    ∀ x ∈ l, x = 0 := by
  intro x hx
  exact List.all_zero_of_le_zero_le_of_sum_eq_zero h0 hs hx

/-- The accumulated ops total is positive when some thread did work. -/
lemma opsQ_sum_pos (counts : List ℕ) (hpos : ∃ c ∈ counts, 0 < c) :
    0 < (opsQ counts).sum := by
  obtain ⟨c, hc, hcpos⟩ := hpos
  have hmem : (c : ℚ) ∈ opsQ counts := by
    rw [opsQ, List.mem_map]
    exact ⟨c, hc, rfl⟩
  have hle := List.single_le_sum (opsQ_nonneg counts) _ hmem
  have : (0 : ℚ) < (c : ℚ) := by exact_mod_cast hcpos
  linarith

/-- Squares of the opsQ entries are nonnegative. -/
lemma opsQ_sq_nonneg (counts : List ℕ) :
    ∀ y ∈ (opsQ counts).map (fun x => x * x), 0 ≤ y := by
  intro y hy
  obtain ⟨x, _, rfl⟩ := List.mem_map.1 hy
  exact mul_self_nonneg x

/-- The accumulated sum of squares is positive when some thread did work. -/
lemma opsQ_sumsq_pos (counts : List ℕ) (hpos : ∃ c ∈ counts, 0 < c) :
    0 < ((opsQ counts).map (fun x => x * x)).sum := by
  obtain ⟨c, hc, hcpos⟩ := hpos
  have hmem : (c : ℚ) * (c : ℚ) ∈ (opsQ counts).map (fun x => x * x) := by
    rw [List.mem_map]
    refine ⟨(c : ℚ), ?_, rfl⟩
    rw [opsQ, List.mem_map]
    exact ⟨c, hc, rfl⟩
  have hle := List.single_le_sum (opsQ_sq_nonneg counts) _ hmem
  have hc0 : (0 : ℚ) < (c : ℚ) := by exact_mod_cast hcpos
  nlinarith

/-- Length of a nonempty counter vector is positive as a rational. -/
lemma lengthQ_pos (counts : List ℕ) (hne : counts ≠ []) :
    0 < (counts.length : ℚ) := by
  have : 0 < counts.length := List.length_pos.2 hne
  exact_mod_cast this

/-- The Jain index of print_hierarchy_stats is positive whenever some
thread completed an operation. -/
lemma jain_pos (counts : List ℕ) (hne : counts ≠ []) (hpos : ∃ c ∈ counts, 0 < c) :
    0 < Mutex.overall_fairness_index counts := by
  rw [Mutex.overall_fairness_index]
  have hS := opsQ_sum_pos counts hpos
  have hQ := opsQ_sumsq_pos counts hpos
  have hn := lengthQ_pos counts hne
  exact div_pos (mul_pos hS hS) (mul_pos hn hQ)

/-- The Jain index of print_hierarchy_stats is at most one, by the
Cauchy-Schwarz inequality. -/
lemma jain_le_one (counts : List ℕ) (hne : counts ≠ []) (hpos : ∃ c ∈ counts, 0 < c) :
    Mutex.overall_fairness_index counts ≤ 1 := by
  rw [Mutex.overall_fairness_index]
  have hQ := opsQ_sumsq_pos counts hpos
  have hn := lengthQ_pos counts hne
  rw [div_le_one (mul_pos hn hQ)]
  have hcs := list_sq_sum_le (opsQ counts)
  have hlen : ((opsQ counts).length : ℚ) = (counts.length : ℚ) := by
    rw [opsQ, List.length_map]
  calc (opsQ counts).sum * (opsQ counts).sum
      = (opsQ counts).sum ^ 2 := by ring
    _ ≤ ((opsQ counts).length : ℚ) * ((opsQ counts).map (fun x => x * x)).sum := hcs
    _ = (counts.length : ℚ) * ((opsQ counts).map (fun x => x * x)).sum := by rw [hlen]

/-- With all per-thread counts equal and at least one positive, the Jain
index of print_hierarchy_stats is exactly one. -/
lemma jain_all_equal (counts : List ℕ) (hne : counts ≠ [])
    (hpos : ∃ c ∈ counts, 0 < c) (heq : ∀ a ∈ counts, ∀ b ∈ counts, a = b) :
    Mutex.overall_fairness_index counts = 1 := by
  obtain ⟨c, hc, hcpos⟩ := hpos
  have hall : ∀ x ∈ opsQ counts, x = (c : ℚ) := by
    intro x hx
    rw [opsQ, List.mem_map] at hx
    obtain ⟨a, ha, rfl⟩ := hx
    exact_mod_cast heq a ha c hc
  have hallsq : ∀ y ∈ (opsQ counts).map (fun x => x * x), y = (c : ℚ) * (c : ℚ) := by
    intro y hy
    obtain ⟨x, hx, rfl⟩ := List.mem_map.1 hy
    rw [hall x hx]
  have hS : (opsQ counts).sum = ((opsQ counts).length : ℚ) * (c : ℚ) :=
    sum_all_eq _ _ hall
  have hQ : ((opsQ counts).map (fun x => x * x)).sum =
      (((opsQ counts).map (fun x => x * x)).length : ℚ) * ((c : ℚ) * (c : ℚ)) :=
    sum_all_eq _ _ hallsq
  have hlen : ((opsQ counts).length : ℚ) = (counts.length : ℚ) := by
    rw [opsQ, List.length_map]
  have hlensq : (((opsQ counts).map (fun x => x * x)).length : ℚ) = (counts.length : ℚ) := by
    rw [List.length_map, hlen]
  have hn := lengthQ_pos counts hne
  have hc0 : (c : ℚ) ≠ 0 := by
    have : (0 : ℚ) < (c : ℚ) := by exact_mod_cast hcpos
    linarith
  rw [Mutex.overall_fairness_index]
  rw [hS, hQ, hlen, hlensq]
  field_simp
  ring

/-- Jain index of print_hierarchy_stats on the vector with a single busy
thread and n - 1 idle threads: exactly 1 / n. -/
lemma jain_single_busy (n x : ℕ) (hn : 0 < n) (hx : 0 < x) :
    Mutex.overall_fairness_index (List.replicate (n - 1) 0 ++ [x]) = 1 / (n : ℚ) := by
  have hxo : ((x : ℚ)) ≠ 0 := by
    have : (0 : ℚ) < (x : ℚ) := by exact_mod_cast hx
    linarith
  have hno : ((n : ℚ)) ≠ 0 := by
    have : (0 : ℚ) < (n : ℚ) := by exact_mod_cast hn
    linarith
  have hlen : (List.replicate (n - 1) 0 ++ [x]).length = n := by
    simp [List.length_append, List.length_replicate]
    omega
  rw [Mutex.overall_fairness_index, opsQ]
  simp only [List.map_append, List.map_replicate, List.map_cons, List.map_nil,
    List.sum_append, List.sum_replicate, List.sum_cons, List.sum_nil, hlen]
  push_cast
  rw [smul_zero]
  field_simp
  ring

/-- Claim C1: for every per-thread operation-count vector with n at least 1
and at least one positive entry, the overall fairness index computed in
print_hierarchy_stats equals the Jain form (sum x)^2 / (n * sum x^2), lies
in the interval (0, 1], equals exactly 1 when all entries are equal, and on
the vector with n - 1 zeros and one positive entry it equals 1 / n. -/
theorem C1_jain_index (counts : List ℕ) (hne : counts ≠ [])
    (hpos : ∃ c ∈ counts, 0 < c) :
    Mutex.overall_fairness_index counts =
      (opsQ counts).sum ^ 2 /
        ((counts.length : ℚ) * ((opsQ counts).map (fun x => x ^ 2)).sum) ∧
    (0 < Mutex.overall_fairness_index counts ∧
      Mutex.overall_fairness_index counts ≤ 1) ∧
    ((∀ a ∈ counts, ∀ b ∈ counts, a = b) →
      Mutex.overall_fairness_index counts = 1) ∧
    (∀ n x : ℕ, 0 < n → 0 < x →
      Mutex.overall_fairness_index (List.replicate (n - 1) 0 ++ [x]) = 1 / (n : ℚ)) := by
  refine ⟨?_, ⟨jain_pos counts hne hpos, jain_le_one counts hne hpos⟩,
    fun heq => jain_all_equal counts hne hpos heq,
    fun n x hn hx => jain_single_busy n x hn hx⟩
  rw [Mutex.overall_fairness_index]
  simp only [pow_two]

/-- Witness for claim C1 at the concrete vector with counts 3 and 3. -/
theorem C1_jain_index_witness :
    0 < Mutex.overall_fairness_index [3, 3] ∧ Mutex.overall_fairness_index [3, 3] ≤ 1 :=
  (C1_jain_index [3, 3] (by decide) (by decide)).2.1

/-! ### Gini coefficient, claim C4 -/

/-- Every row of the Gini double loop accumulates a nonnegative value. -/
lemma gini_row_nonneg (counts : List ℕ) :
    ∀ r ∈ (opsQ counts).map (fun a => ((opsQ counts).map (fun b => |a - b|)).sum),
      0 ≤ r := by
  intro r hr
  obtain ⟨a, _, rfl⟩ := List.mem_map.1 hr
  apply List.sum_nonneg
  intro y hy
  obtain ⟨b, _, rfl⟩ := List.mem_map.1 hy
  exact abs_nonneg _

/-- With all per-thread counts equal, the Gini accumulator is zero. -/
lemma gini_accum_eq_zero (counts : List ℕ)
    (heq : ∀ a ∈ counts, ∀ b ∈ counts, a = b) :
    Mutex.gini_accum counts = 0 := by
  rw [Mutex.gini_accum]
  apply List.sum_eq_zero
  intro r hr
  obtain ⟨a, ha, rfl⟩ := List.mem_map.1 hr
  apply List.sum_eq_zero
  intro y hy
  obtain ⟨b, hb, rfl⟩ := List.mem_map.1 hy
  rw [opsQ, List.mem_map] at ha hb
  obtain ⟨a0, ha0, rfl⟩ := ha
  obtain ⟨b0, hb0, rfl⟩ := hb
  have : a0 = b0 := heq a0 ha0 b0 hb0
  simp [this]

/-- A zero Gini accumulator forces all per-thread counts to be equal. -/
lemma all_equal_of_gini_accum_zero (counts : List ℕ)
    (h0 : Mutex.gini_accum counts = 0) :
    ∀ a ∈ counts, ∀ b ∈ counts, a = b := by
  intro a ha b hb
  have haQ : (a : ℚ) ∈ opsQ counts := by
    rw [opsQ, List.mem_map]; exact ⟨a, ha, rfl⟩
  have hbQ : (b : ℚ) ∈ opsQ counts := by
    rw [opsQ, List.mem_map]; exact ⟨b, hb, rfl⟩
  rw [Mutex.gini_accum] at h0
  have hrow : ((opsQ counts).map (fun y => |(a : ℚ) - y|)).sum = 0 := by
    have hmem : ((opsQ counts).map (fun y => |(a : ℚ) - y|)).sum ∈
        (opsQ counts).map (fun x => ((opsQ counts).map (fun y => |x - y|)).sum) := by
      rw [List.mem_map]; exact ⟨(a : ℚ), haQ, rfl⟩
    exact all_zero_of_sum_zero _ (gini_row_nonneg counts) h0 _ hmem
  have habs : |(a : ℚ) - (b : ℚ)| = 0 := by
    have hmem2 : |(a : ℚ) - (b : ℚ)| ∈ (opsQ counts).map (fun y => |(a : ℚ) - y|) := by
      rw [List.mem_map]; exact ⟨(b : ℚ), hbQ, rfl⟩
    refine all_zero_of_sum_zero _ ?_ hrow _ hmem2
    intro y hy
    obtain ⟨c, _, rfl⟩ := List.mem_map.1 hy
    exact abs_nonneg _
  have : (a : ℚ) = (b : ℚ) := by
    have := abs_eq_zero.1 habs
    linarith [sub_eq_zero.1 this]
  exact_mod_cast this

/-- Claim C4: the Gini coefficient computed in print_hierarchy_stats equals
the accumulated pairwise absolute differences divided by 2 n times the
total, is zero exactly when all per-thread counts are equal, vanishes on
the vector 10,10,10,10 and equals 3/4 on the vector 0,0,0,40. -/
theorem C4_gini (counts : List ℕ) (hne : counts ≠ []) (hpos : 0 < counts.sum) :
    Mutex.gini counts =
      Mutex.gini_accum counts / (2 * (counts.length : ℚ) * (opsQ counts).sum) ∧
    (Mutex.gini counts = 0 ↔ ∀ a ∈ counts, ∀ b ∈ counts, a = b) ∧
    Mutex.gini [10, 10, 10, 10] = 0 ∧
    Mutex.gini [0, 0, 0, 40] = 3 / 4 := by
  have hS : 0 < (opsQ counts).sum := by
    apply opsQ_sum_pos
    have : ∃ c ∈ counts, c ≠ 0 := by
      by_contra hall
      push_neg at hall
      have : counts.sum = 0 := by
        apply List.sum_eq_zero
        intro x hx
        exact hall x hx
      omega
    obtain ⟨c, hc, hc0⟩ := this
    exact ⟨c, hc, Nat.pos_of_ne_zero hc0⟩
  have hn := lengthQ_pos counts hne
  have hD : 0 < 2 * (counts.length : ℚ) * (opsQ counts).sum := by positivity
  refine ⟨rfl, ?_, ?_, ?_⟩
  · constructor
    · intro h0
      rw [Mutex.gini, div_eq_zero_iff] at h0
      rcases h0 with h0 | h0
      · exact all_equal_of_gini_accum_zero counts h0
      · exact absurd h0 (ne_of_gt hD)
    · intro heq
      rw [Mutex.gini, gini_accum_eq_zero counts heq, zero_div]
  · norm_num [Mutex.gini, Mutex.gini_accum, opsQ]
  · norm_num [Mutex.gini, Mutex.gini_accum, opsQ]

/-- Witness for claim C4 at the concrete vector 10,10,10,10. -/
theorem C4_gini_witness : Mutex.gini [10, 10, 10, 10] = 0 :=
  (C4_gini [10, 10, 10, 10] (by decide) (by decide)).2.2.1

/-! ### Throughput spread, claim C5 -/

/-- The running minimum of the fold is a lower bound for the list. -/
lemma foldl_min_le (l : List ℚ) (a : ℚ) :
    l.foldl min a ≤ a ∧ ∀ y ∈ l, l.foldl min a ≤ y := by
  induction l generalizing a with
  | nil => exact ⟨le_refl a, by intro y hy; cases hy⟩
  | cons b t ih =>
      obtain ⟨ih1, ih2⟩ := ih (min a b)
      refine ⟨le_trans ih1 (min_le_left a b), ?_⟩
      intro y hy
      rcases List.mem_cons.1 hy with rfl | hyt
      · exact le_trans ih1 (min_le_right a y)
      · exact ih2 y hyt

/-- The running minimum of the fold is the seed or a member of the list. -/
lemma foldl_min_mem (l : List ℚ) (a : ℚ) :
    l.foldl min a = a ∨ l.foldl min a ∈ l := by
  induction l generalizing a with
  | nil => exact Or.inl rfl
  | cons b t ih =>
      rcases ih (min a b) with h | h
      · rcases min_choice a b with hab | hab
        · left; rw [List.foldl_cons, h, hab]
        · right; rw [List.foldl_cons, h, hab]; exact List.mem_cons_self b t
      · right; exact List.mem_cons_of_mem b h

/-- The running maximum of the fold is an upper bound for the list. -/
lemma le_foldl_max (l : List ℚ) (a : ℚ) :
    a ≤ l.foldl max a ∧ ∀ y ∈ l, y ≤ l.foldl max a := by
  induction l generalizing a with
  | nil => exact ⟨le_refl a, by intro y hy; cases hy⟩
  | cons b t ih =>
      obtain ⟨ih1, ih2⟩ := ih (max a b)
      refine ⟨le_trans (le_max_left a b) ih1, ?_⟩
      intro y hy
      rcases List.mem_cons.1 hy with rfl | hyt
      · exact le_trans (le_max_right a y) ih1
      · exact ih2 y hyt

/-- The running maximum of the fold is the seed or a member of the list. -/
lemma foldl_max_mem (l : List ℚ) (a : ℚ) :
    l.foldl max a = a ∨ l.foldl max a ∈ l := by
  induction l generalizing a with
  | nil => exact Or.inl rfl
  | cons b t ih =>
      rcases ih (max a b) with h | h
      · rcases max_choice a b with hab | hab
        · left; rw [List.foldl_cons, h, hab]
        · right; rw [List.foldl_cons, h, hab]; exact List.mem_cons_self b t
      · right; exact List.mem_cons_of_mem b h

/-- The seed headD of a nonempty list is a member. -/
lemma headD_mem (l : List ℚ) (hne : l ≠ []) : l.headD 0 ∈ l := by
  cases l with
  | nil => exact absurd rfl hne
  | cons a t => exact List.mem_cons_self a t

/-- Claim C5: with a positive mean, the throughput spread printed by
print_hierarchy_stats is (max - min) / mean times 100, where max and min
really are the extreme per-thread rates, and on the vector 80,120,100
(max 120, min 80, mean 100) it is exactly 40 percent. -/
theorem C5_throughput_spread (counts : List ℕ) (hne : counts ≠ [])
    (hpos : 0 < counts.sum) :
    (∃ m M, m ∈ opsQ counts ∧ M ∈ opsQ counts ∧
      (∀ y ∈ opsQ counts, m ≤ y ∧ y ≤ M) ∧
      Mutex.throughput_spread counts =
        ((M - m) / ((counts.sum : ℚ) / (counts.length : ℚ))) * 100) ∧
    Mutex.throughput_spread [80, 120, 100] = 40 := by
  constructor
  · have hopsne : opsQ counts ≠ [] := by
      rw [opsQ]
      simpa using hne
    have hseed := headD_mem (opsQ counts) hopsne
    refine ⟨(opsQ counts).foldl min ((opsQ counts).headD 0),
      (opsQ counts).foldl max ((opsQ counts).headD 0), ?_, ?_, ?_, ?_⟩
    · rcases foldl_min_mem (opsQ counts) ((opsQ counts).headD 0) with h | h
      · rw [h]; exact hseed
      · exact h
    · rcases foldl_max_mem (opsQ counts) ((opsQ counts).headD 0) with h | h
      · rw [h]; exact hseed
      · exact h
    · intro y hy
      exact ⟨(foldl_min_le (opsQ counts) _).2 y hy, (le_foldl_max (opsQ counts) _).2 y hy⟩
    · have havg : 0 < (counts.sum : ℚ) / (counts.length : ℚ) := by
        have hs : (0 : ℚ) < (counts.sum : ℚ) := by exact_mod_cast hpos
        exact div_pos hs (lengthQ_pos counts hne)
      rw [Mutex.throughput_spread, if_pos havg]
  · norm_num [Mutex.throughput_spread, opsQ]

/-- Witness for claim C5 at the concrete vector 80,120,100. -/
theorem C5_throughput_spread_witness : Mutex.throughput_spread [80, 120, 100] = 40 :=
  (C5_throughput_spread [80, 120, 100] (by decide) (by decide)).2

/-- Reading a node of a map-over-range construction at an in-bounds index
yields the construction function applied to the index. -/
lemma getD_map_range (n i : ℕ) (f : ℕ → Node) (d : Node) (h : i < n) :
    (((List.range n).map f).getD i d) = f i := by
  rw [List.getD_eq_getElem?_getD, List.getElem?_map, List.getElem?_range h]
  rfl

/-- Claim C7: for every threadCount between 1 and 16, the balanced
hierarchy has threadCount + 1 nodes, node 0 is its own parent, and every
node i with 1 le i le threadCount has parent (i - 1) / 2. -/
theorem C7_balanced_hierarchy (tc now : ℕ) (h1 : 1 ≤ tc) (h16 : tc ≤ 16) :
    (FT.init_balanced_hierarchy tc now).length = tc + 1 ∧
    ((FT.init_balanced_hierarchy tc now).getD 0 ⟨0, 0, 0, 0, 0, 0⟩).parent = 0 ∧
    ((FT.init_balanced_hierarchy tc now).getD 0 ⟨0, 0, 0, 0, 0, 0⟩).id = 0 ∧
    (∀ i, 1 ≤ i → i ≤ tc →
      ((FT.init_balanced_hierarchy tc now).getD i ⟨0, 0, 0, 0, 0, 0⟩).parent = (i - 1) / 2 ∧
      ((FT.init_balanced_hierarchy tc now).getD i ⟨0, 0, 0, 0, 0, 0⟩).id = i) := by
  refine ⟨?_, ?_, ?_, ?_⟩
  · rw [FT.init_balanced_hierarchy, List.length_map, List.length_range]
  · rw [FT.init_balanced_hierarchy, getD_map_range _ _ _ _ (by omega)]
    rfl
  · rw [FT.init_balanced_hierarchy, getD_map_range _ _ _ _ (by omega)]
    rfl
  · intro i hi1 hitc
    rw [FT.init_balanced_hierarchy, getD_map_range _ _ _ _ (by omega)]
    rw [if_neg (by omega)]
    exact ⟨rfl, rfl⟩

/-- Witness for claim C7 at threadCount 7: node 3 has parent 1 and node 6
has parent 2. -/
theorem C7_balanced_hierarchy_witness :
    ((FT.init_balanced_hierarchy 7 0).getD 3 ⟨0, 0, 0, 0, 0, 0⟩).parent = 1 ∧
    ((FT.init_balanced_hierarchy 7 0).getD 6 ⟨0, 0, 0, 0, 0, 0⟩).parent = 2 :=
  ⟨((C7_balanced_hierarchy 7 0 (by decide) (by decide)).2.2.2 3 (by decide) (by decide)).1,
   ((C7_balanced_hierarchy 7 0 (by decide) (by decide)).2.2.2 6 (by decide) (by decide)).1⟩


/-- Claim C3: a configuration with insert_ratio + find_ratio above 1 is
rejected by both main functions with exit code 1 and an empty action
trace, so no lock is initialized, no store is touched and no thread is
created; and every accepted configuration has its three shares summing to
exactly 1 because update_ratio is computed as 1 - insert - find. -/
theorem C3_ratio_validation (nt : ℤ) (ir fr : ℚ) (lt ta : ℤ) (now : ℕ) :
    (1 < ir + fr →
      Mutex.main_startup nt ir fr lt = ⟨[], 1, none⟩ ∧
      (FT.main_startup nt ir fr ta now).events = [] ∧
      (FT.main_startup nt ir fr ta now).exit_code = 1 ∧
      (FT.main_startup nt ir fr ta now).config = none) ∧
    (∀ cfg lk, (Mutex.main_startup nt ir fr lt).config = some (cfg, lk) →
      cfg.insert_rat + cfg.find_rat + cfg.update_rat = 1) ∧
    (∀ cfg, (FT.main_startup nt ir fr ta now).config = some cfg →
      cfg.insert_rat + cfg.find_rat + cfg.update_rat = 1) := by
  refine ⟨?_, ?_, ?_⟩
  · intro hgt
    rw [Mutex.main_startup, FT.main_startup]
    by_cases hnt : 16 < nt ∨ nt < 1
    · simp [hnt]
    · simp [hnt, hgt]
  · intro cfg lk hcfg
    rw [Mutex.main_startup] at hcfg
    by_cases hnt : 16 < nt ∨ nt < 1
    · simp [hnt] at hcfg
    · by_cases hr : 1 < ir + fr
      · simp [hnt, hr] at hcfg
      · simp only [if_neg hnt, if_neg hr] at hcfg
        cases hlk : Mutex.init_lock lt with
        | none => rw [hlk] at hcfg; simp at hcfg
        | some lk2 =>
            rw [hlk] at hcfg
            simp at hcfg
            obtain ⟨h1, _⟩ := hcfg
            rw [← h1]
            ring
  · intro cfg hcfg
    rw [FT.main_startup] at hcfg
    by_cases hnt : 16 < nt ∨ nt < 1
    · simp [hnt] at hcfg
    · by_cases hr : 1 < ir + fr
      · simp [hnt, hr] at hcfg
      · simp only [if_neg hnt, if_neg hr] at hcfg
        simp at hcfg
        rw [← hcfg]
        ring

/-- Witness for claim C3 at the concrete invalid input insertRatio 0.6 and
findRatio 0.5 from scenario D. -/
theorem C3_ratio_validation_witness :
    Mutex.main_startup 4 (3 / 5) (1 / 2) 0 = ⟨[], 1, none⟩ ∧
    (FT.main_startup 4 (3 / 5) (1 / 2) 0 0).exit_code = 1 :=
  ⟨((C3_ratio_validation 4 (3 / 5) (1 / 2) 0 0 0).1 (by norm_num)).1,
   ((C3_ratio_validation 4 (3 / 5) (1 / 2) 0 0 0).1 (by norm_num)).2.2.1⟩

/-- Counterexample to claim C6: with lock_type 4, outside the defined
range 0..3, main of upscale_mutex.c does not fall back to MUTEX and run;
init_lock hits its default branch, returns -1, and main exits with status
1 having performed no action. -/
theorem C6_counterexample :
    (Mutex.main_startup 4 (3 / 10) (3 / 5) 4).exit_code = 1 ∧
    (Mutex.main_startup 4 (3 / 10) (3 / 5) 4).config = none ∧
    (Mutex.main_startup 4 (3 / 10) (3 / 5) 4).events = [] := by
  norm_num [Mutex.main_startup, Mutex.init_lock]

/-- Claim C6 as amended: in upscale_fairness_test an out-of-range
hierarchy selector is silently replaced by FLAT in main and the run
proceeds without any warning, since init_hierarchy only warns when it
itself receives an unknown value such as 5; in upscale_mutex an
out-of-range lock_type is not given a fallback: init_lock fails and main
exits non-zero before any lock, store or thread action. -/
theorem C6_selector_fallback (nt : ℤ) (ir fr : ℚ) (now : ℕ)
    (hnt1 : 1 ≤ nt) (hnt16 : nt ≤ 16) (hr : ir + fr ≤ 1) :
    (∀ t : ℤ, t < 0 ∨ 4 < t →
      (FT.main_startup nt ir fr t now).exit_code = 0 ∧
      (FT.main_startup nt ir fr t now).hier_type = 0 ∧
      (FT.main_startup nt ir fr t now).nodes = FT.init_flat_hierarchy nt.toNat now ∧
      Event.warn_unknown ∉ (FT.main_startup nt ir fr t now).events) ∧
    (∀ n now2, FT.init_hierarchy n 5 now2 = (FT.init_flat_hierarchy n now2, true)) ∧
    (∀ l : ℤ, l < 0 ∨ 3 < l →
      Mutex.main_startup nt ir fr l = ⟨[], 1, none⟩) := by
  have hcond : ¬(16 < nt ∨ nt < 1) := by omega
  have hrr : ¬(1 < ir + fr) := not_lt.2 hr
  refine ⟨?_, ?_, ?_⟩
  · intro t ht
    have hht : ¬(0 ≤ t ∧ t ≤ 4) := by omega
    simp only [FT.main_startup, if_neg hht, if_neg hcond, if_neg hrr]
    simp [FT.init_hierarchy]
  · intro n now2
    rw [FT.init_hierarchy]
    norm_num
  · intro l hl
    have h0 : l ≠ 0 := by omega
    have h1 : l ≠ 1 := by omega
    have h2 : l ≠ 2 := by omega
    have h3 : l ≠ 3 := by omega
    simp [Mutex.main_startup, Mutex.init_lock, hcond, hrr, h0, h1, h2, h3]

/-- Witness for the amended claim C6: selector 9 runs with a flat
hierarchy and no warning, lock selector 4 is rejected. -/
theorem C6_selector_fallback_witness :
    ((FT.main_startup 4 (3 / 10) (3 / 5) 9 0).exit_code = 0 ∧
      (FT.main_startup 4 (3 / 10) (3 / 5) 9 0).hier_type = 0 ∧
      (FT.main_startup 4 (3 / 10) (3 / 5) 9 0).nodes = FT.init_flat_hierarchy 4 0 ∧
      Event.warn_unknown ∉ (FT.main_startup 4 (3 / 10) (3 / 5) 9 0).events) ∧
    Mutex.main_startup 4 (3 / 10) (3 / 5) 9 = ⟨[], 1, none⟩ :=
  ⟨(C6_selector_fallback 4 (3 / 10) (3 / 5) 0 (by norm_num) (by norm_num)
      (by norm_num)).1 9 (by norm_num),
   (C6_selector_fallback 4 (3 / 10) (3 / 5) 0 (by norm_num) (by norm_num)
      (by norm_num)).2.2 9 (by norm_num)⟩

/-- Claim C8: for every draw r in the unit interval and mix shares in
the unit interval, the worker loop selects Insert when r is below the
insert share, Find when r is below the sum of the insert and find shares,
and Update otherwise. -/
theorem C8_operation_selection (r i f : ℚ) (hr0 : 0 ≤ r) (hr1 : r < 1)
    (hi0 : 0 ≤ i) (hi1 : i ≤ 1) (hf0 : 0 ≤ f) (hf1 : f ≤ 1) :
    (r < i → select_operation r i f = OperationType.insert) ∧
    (i ≤ r → r < i + f → select_operation r i f = OperationType.find) ∧
    (i + f ≤ r → select_operation r i f = OperationType.update) := by
  refine ⟨?_, ?_, ?_⟩
  · intro h
    rw [select_operation, if_pos h]
  · intro h1 h2
    rw [select_operation, if_neg (not_lt.2 h1), if_pos h2]
  · intro h
    have hni : ¬ r < i := not_lt.2 (le_trans (by linarith) h)
    have hnif : ¬ r < i + f := not_lt.2 h
    rw [select_operation, if_neg hni, if_neg hnif]

/-- Witness for claim C8 at the concrete draw one half with the default
mix 0.3 and 0.6: the selected operation is Find. -/
theorem C8_operation_selection_witness :
    select_operation (1 / 2) (3 / 10) (3 / 5) = OperationType.find :=
  (C8_operation_selection (1 / 2) (3 / 10) (3 / 5) (by norm_num) (by norm_num)
    (by norm_num) (by norm_num) (by norm_num) (by norm_num)).2.1
    (by norm_num) (by norm_num)

/-- Counterexample to claim C9: on the empty keyspace (next_key_id 1) the
perform_find of upscale_fairness_test.c does return a zero duration with
no store call, but it does treat the situation as an error to the extent
of printing the diagnostic line Error: No keys available for find
operation, refuting the claim that the situation is not treated as an
error. -/
theorem C9_counterexample :
    (FT.perform_find 1 0 false).duration = 0 ∧
    (FT.perform_find 1 0 false).store_calls = 0 ∧
    (FT.perform_find 1 0 false).diag_printed = true := by
  refine ⟨rfl, rfl, rfl⟩

/-- Claim C9 as amended: whenever next_key_id is at most 1, perform_find
and perform_update in both harnesses return a zero duration without any
store call, and the worker loop still counts the operation as completed;
the perform_find of upscale_fairness_test.c additionally prints an error
diagnostic, while the other three functions stay silent. -/
theorem C9_empty_keyspace (k dur : ℕ) (fo sb : Bool) (hk : k ≤ 1) :
    FT.perform_find k dur sb = ⟨0, 0, true⟩ ∧
    FT.perform_update k dur fo sb = ⟨0, 0, false⟩ ∧
    Mutex.perform_find k dur = ⟨0, 0, false⟩ ∧
    Mutex.perform_update k dur fo = ⟨0, 0, false⟩ ∧
    (∀ c : Counters,
      (record_operation c OperationType.find).find_count = c.find_count + 1 ∧
      (record_operation c OperationType.find).total_operations = c.total_operations + 1 ∧
      (record_operation c OperationType.update).update_count = c.update_count + 1 ∧
      (record_operation c OperationType.update).total_operations = c.total_operations + 1) := by
  refine ⟨?_, ?_, ?_, ?_, ?_⟩
  · rw [FT.perform_find, if_pos hk]
  · rw [FT.perform_update, if_pos hk]
  · rw [Mutex.perform_find, if_pos hk]
  · rw [Mutex.perform_update, if_pos hk]
  · intro c
    exact ⟨rfl, rfl, rfl, rfl⟩

/-- Witness for the amended claim C9 at next_key_id 1. -/
theorem C9_empty_keyspace_witness :
    FT.perform_update 1 7 true false = ⟨0, 0, false⟩ ∧
    Mutex.perform_find 1 7 = ⟨0, 0, false⟩ :=
  ⟨(C9_empty_keyspace 1 7 true false (by decide)).2.1,
   (C9_empty_keyspace 1 7 true false (by decide)).2.2.1⟩

/-! ### Lemmas about the fairness report, claims C2 and C10 -/

/-- A list of naturals that all equal c sums to length times c. -/
lemma nat_sum_all_eq (l : List ℕ) (c : ℕ) (h : ∀ x ∈ l, x = c) :
    l.sum = l.length * c := by
  induction l with
  | nil => simp
  | cons a t ih =>
      have ha : a = c := h a (List.mem_cons_self a t)
      have ht : ∀ x ∈ t, x = c := fun x hx => h x (List.mem_cons_of_mem a hx)
      simp [ha, ih ht]
      ring

/-- A list of naturals with a positive sum has a positive element. -/
lemma exists_pos_of_sum_pos (l : List ℕ) (h : 0 < l.sum) : ∃ c ∈ l, 0 < c := by
  by_contra hall
  push_neg at hall
  have hz : l.sum = 0 := by
    apply List.sum_eq_zero
    intro x hx
    have := hall x hx
    omega
  omega

/-- Every division of one per-thread table row succeeds when the duration
is nonzero, and the row values are as printed. -/
lemma per_thread_line_eq (duration : ℕ) (t : FT.ThreadStats) (hd : duration ≠ 0) :
    FT.per_thread_line duration t =
      some ((t.total_operations : ℚ) / (duration : ℚ),
        (t.lock_wait_time : ℚ) / ((CYCLE_PER_US * 1000 : ℕ) : ℚ),
        if 0 < t.lock_acquisitions then
          (t.lock_wait_time : ℚ) / ((t.lock_acquisitions * CYCLE_PER_US : ℕ) : ℚ)
        else 0) := by
  have hdq : ((duration : ℕ) : ℚ) ≠ 0 := Nat.cast_ne_zero.2 hd
  have hC : ¬(CYCLE_PER_US = 0) := by norm_num [CYCLE_PER_US]
  by_cases hacq : 0 < t.lock_acquisitions
  · have ha : ¬(t.lock_acquisitions = 0 ∨ CYCLE_PER_US = 0) := by omega
    have ha0 : ¬(t.lock_acquisitions = 0) := by omega
    simp [FT.per_thread_line, safeDiv, hdq, hC, ha, ha0, hacq]
  · simp [FT.per_thread_line, safeDiv, hdq, hC, hacq]

/-- The whole per-thread table of print_fairness_stats evaluates without
any division by zero when the duration is nonzero. -/
lemma thread_table_some (duration : ℕ) (hd : duration ≠ 0)
    (threads : List FT.ThreadStats) :
    ∃ v, FT.thread_table duration threads = some v := by
  induction threads with
  | nil => exact ⟨[], rfl⟩
  | cons t ts ih =>
      obtain ⟨v, hv⟩ := ih
      obtain ⟨w, hw⟩ : ∃ w, FT.per_thread_line duration t = some w :=
        ⟨_, per_thread_line_eq duration t hd⟩
      exact ⟨w :: v, by simp [FT.thread_table, hw, hv]⟩

/-- Claim C10: when every thread finished with zero operations and the
run duration is positive, print_fairness_stats evaluates with no division
by zero, the reported Fairness Index is exactly 0, a value outside the
documented range of the Jain index, and the Throughput Variation line is
the N/A branch. -/
theorem C10_zero_ops_guard (threads : List FT.ThreadStats) (duration : ℕ)
    (hne : threads ≠ []) (hd : 0 < duration)
    (hzero : ∀ t ∈ threads, t.total_operations = 0) :
    ∃ rep, FT.print_fairness_stats threads duration = some rep ∧
      rep.fairness_index = 0 ∧
      ¬(0 < rep.fairness_index ∧ rep.fairness_index ≤ 1) ∧
      rep.variation = none := by
  have hd0 : duration ≠ 0 := by omega
  obtain ⟨v, hv⟩ := thread_table_some duration hd0 threads
  have htot : (threads.map (fun t => t.total_operations)).sum = 0 := by
    apply List.sum_eq_zero
    intro x hx
    obtain ⟨t, ht, rfl⟩ := List.mem_map.1 hx
    exact hzero t ht
  have hlen0 : ¬(threads.length = 0) := by
    cases threads with
    | nil => exact absurd rfl hne
    | cons a l => simp
  have heval : FT.print_fairness_stats threads duration =
      some ⟨0,
        ((threads.map (fun t => (t.total_operations : ℚ))).drop 1).foldl min
          ((threads.map (fun t => (t.total_operations : ℚ))).headD 0),
        ((threads.map (fun t => (t.total_operations : ℚ))).drop 1).foldl max
          ((threads.map (fun t => (t.total_operations : ℚ))).headD 0),
        0, 0, none⟩ := by
    rw [FT.print_fairness_stats, hv]
    simp [htot, safeDiv, CYCLE_PER_US, hlen0, hd0]
  exact ⟨_, heval, rfl, by norm_num, rfl⟩

/-- Witness for claim C10 with two idle threads over one second. -/
theorem C10_zero_ops_guard_witness :
    ∃ rep, FT.print_fairness_stats [⟨0, 5, 2⟩, ⟨0, 0, 0⟩] 1 = some rep ∧
      rep.fairness_index = 0 ∧
      ¬(0 < rep.fairness_index ∧ rep.fairness_index ≤ 1) ∧
      rep.variation = none :=
  C10_zero_ops_guard [⟨0, 5, 2⟩, ⟨0, 0, 0⟩] 1 (by decide) (by decide) (by decide)

/-- Counterexample to claim C2: on the per-thread counts 0 and 2 the
fairness index printed by print_fairness_stats is 1, because with
avg = total / n the expression (avg * avg * n) / (total * total / n)
cancels to 1 whatever the distribution, while the standard Jain index of
print_hierarchy_stats on the same vector is 1/2. -/
theorem C2_counterexample :
    (FT.print_fairness_stats [⟨0, 0, 0⟩, ⟨2, 0, 0⟩] 1).map (fun r => r.fairness_index) =
      some 1 ∧
    Mutex.overall_fairness_index [0, 2] = 1 / 2 ∧
    (FT.print_fairness_stats [⟨0, 0, 0⟩, ⟨2, 0, 0⟩] 1).map (fun r => r.fairness_index) ≠
      some (Mutex.overall_fairness_index [0, 2]) := by
  have h1 : (FT.print_fairness_stats [⟨0, 0, 0⟩, ⟨2, 0, 0⟩] 1).map
      (fun r => r.fairness_index) = some 1 := by
    simp [FT.print_fairness_stats, FT.thread_table, FT.per_thread_line, safeDiv,
      CYCLE_PER_US]
  have h2 : Mutex.overall_fairness_index [0, 2] = 1 / 2 := by
    norm_num [Mutex.overall_fairness_index, opsQ]
  refine ⟨h1, h2, ?_⟩
  rw [h1, h2]
  norm_num

/-- Claim C2 as amended: with a positive total, the index printed by
print_fairness_stats equals (avg * avg * n) divided by the C unsigned
integer division total * total / n, a value that depends only on the
total and n, not on how operations are distributed across the threads; it
equals 1 whenever n divides total squared, and in particular it agrees
with the standard Jain index of print_hierarchy_stats when all per-thread
counts are equal, but not in general. -/
theorem C2_fairness_index_vs_jain (threads : List FT.ThreadStats) (duration : ℕ)
    (hne : threads ≠ []) (hd : 0 < duration)
    (hpos : 0 < (threads.map (fun t => t.total_operations)).sum)
    (hbig : threads.length ≤ (threads.map (fun t => t.total_operations)).sum *
      (threads.map (fun t => t.total_operations)).sum) :
    ∃ rep, FT.print_fairness_stats threads duration = some rep ∧
      rep.fairness_index =
        ((((threads.map (fun t => t.total_operations)).sum : ℕ) : ℚ) / (threads.length : ℚ) *
          ((((threads.map (fun t => t.total_operations)).sum : ℕ) : ℚ) / (threads.length : ℚ)) *
          (threads.length : ℚ)) /
        (((threads.map (fun t => t.total_operations)).sum *
          (threads.map (fun t => t.total_operations)).sum / threads.length : ℕ) : ℚ) ∧
      (threads.length ∣ (threads.map (fun t => t.total_operations)).sum *
          (threads.map (fun t => t.total_operations)).sum →
        rep.fairness_index = 1) ∧
      ((∀ a ∈ threads.map (fun t => t.total_operations),
          ∀ b ∈ threads.map (fun t => t.total_operations), a = b) →
        rep.fairness_index =
          Mutex.overall_fairness_index (threads.map (fun t => t.total_operations))) := by
  have hd0 : duration ≠ 0 := by omega
  obtain ⟨v, hv⟩ := thread_table_some duration hd0 threads
  have hlenpos : 0 < threads.length := List.length_pos.2 hne
  have hlen0 : ¬(threads.length = 0) := by omega
  have hlenq : ((threads.length : ℕ) : ℚ) ≠ 0 := by exact_mod_cast hlen0
  have hSq : (((threads.map (fun t => t.total_operations)).sum : ℕ) : ℚ) ≠ 0 := by
    exact_mod_cast Nat.pos_iff_ne_zero.1 hpos
  have hdiv0 : ¬((threads.map (fun t => t.total_operations)).sum *
      (threads.map (fun t => t.total_operations)).sum / threads.length = 0) := by
    have := Nat.div_pos hbig hlenpos
    omega
  have havgpos : 0 < ((((threads.map (fun t => t.total_operations)).sum : ℕ) : ℚ)) /
      (threads.length : ℚ) := by
    apply div_pos
    · exact_mod_cast hpos
    · exact_mod_cast hlenpos
  have havgne : ¬(((((threads.map (fun t => t.total_operations)).sum : ℕ) : ℚ)) /
      (threads.length : ℚ) = 0) := ne_of_gt havgpos
  have hb : threads.length ∣ (threads.map (fun t => t.total_operations)).sum *
      (threads.map (fun t => t.total_operations)).sum →
      ((((threads.map (fun t => t.total_operations)).sum : ℕ) : ℚ) / (threads.length : ℚ) *
        ((((threads.map (fun t => t.total_operations)).sum : ℕ) : ℚ) / (threads.length : ℚ)) *
        (threads.length : ℚ)) /
      (((threads.map (fun t => t.total_operations)).sum *
        (threads.map (fun t => t.total_operations)).sum / threads.length : ℕ) : ℚ) = 1 := by
    intro hdvd
    have hS2 : (List.map (Nat.cast ∘ fun t : FT.ThreadStats => t.total_operations)
        threads).sum ≠ (0 : ℚ) := by
      rw [← List.map_map, ← Nat.cast_list_sum]
      exact hSq
    rw [Nat.cast_div hdvd hlenq]
    push_cast
    field_simp
    ring
  have heval : FT.print_fairness_stats threads duration =
      some ⟨(threads.map (fun t => t.total_operations)).sum,
        ((threads.map (fun t => (t.total_operations : ℚ))).drop 1).foldl min
          ((threads.map (fun t => (t.total_operations : ℚ))).headD 0),
        ((threads.map (fun t => (t.total_operations : ℚ))).drop 1).foldl max
          ((threads.map (fun t => (t.total_operations : ℚ))).headD 0),
        ((((threads.map (fun t => t.total_operations)).sum : ℕ) : ℚ)) / (threads.length : ℚ),
        ((((threads.map (fun t => t.total_operations)).sum : ℕ) : ℚ) / (threads.length : ℚ) *
          ((((threads.map (fun t => t.total_operations)).sum : ℕ) : ℚ) / (threads.length : ℚ)) *
          (threads.length : ℚ)) /
        (((threads.map (fun t => t.total_operations)).sum *
          (threads.map (fun t => t.total_operations)).sum / threads.length : ℕ) : ℚ),
        some ((((threads.map (fun t => (t.total_operations : ℚ))).drop 1).foldl max
            ((threads.map (fun t => (t.total_operations : ℚ))).headD 0) -
          ((threads.map (fun t => (t.total_operations : ℚ))).drop 1).foldl min
            ((threads.map (fun t => (t.total_operations : ℚ))).headD 0)) /
          ((((threads.map (fun t => t.total_operations)).sum : ℕ) : ℚ) / (threads.length : ℚ)) *
          100)⟩ := by
    have ha2 : ¬((List.map (Nat.cast ∘ fun t : FT.ThreadStats => t.total_operations)
        threads).sum = (0 : ℚ)) := by
      rw [← List.map_map]
      rw [← Nat.cast_list_sum]
      exact_mod_cast Nat.pos_iff_ne_zero.1 hpos
    have ha1 : 0 < (List.map (Nat.cast ∘ fun t : FT.ThreadStats => t.total_operations)
        threads).sum / (threads.length : ℚ) := by
      rw [← List.map_map]
      rw [← Nat.cast_list_sum]
      exact havgpos
    rw [FT.print_fairness_stats, hv]
    simp [safeDiv, CYCLE_PER_US, hd0, hlen0, hdiv0, hpos, havgpos, havgne, ha2, ha1]
  refine ⟨_, heval, rfl, hb, ?_⟩
  intro heq
  obtain ⟨c, hcm, hcp⟩ :=
    exists_pos_of_sum_pos (threads.map (fun t => t.total_operations)) hpos
  have hall : ∀ x ∈ threads.map (fun t => t.total_operations), x = c :=
    fun x hx => heq x hx c hcm
  have hsum : (threads.map (fun t => t.total_operations)).sum =
      (threads.map (fun t => t.total_operations)).length * c :=
    nat_sum_all_eq _ c hall
  have hdvd : threads.length ∣ (threads.map (fun t => t.total_operations)).sum *
      (threads.map (fun t => t.total_operations)).sum := by
    refine ⟨c * (threads.map (fun t => t.total_operations)).sum, ?_⟩
    rw [hsum, List.length_map]
    ring
  have hnec : threads.map (fun t => t.total_operations) ≠ [] := by
    intro habs
    exact hne (List.map_eq_nil.1 habs)
  have hj : Mutex.overall_fairness_index (threads.map (fun t => t.total_operations)) = 1 :=
    jain_all_equal _ hnec ⟨c, hcm, hcp⟩ heq
  rw [hj]
  exact hb hdvd

/-- Witness for the amended claim C2 with two threads at 3 operations
each over one second: the printed index is 1. -/
theorem C2_fairness_index_vs_jain_witness :
    ∃ rep, FT.print_fairness_stats [⟨3, 0, 0⟩, ⟨3, 0, 0⟩] 1 = some rep ∧
      rep.fairness_index = 1 := by
  obtain ⟨rep, h1, _, h3, _⟩ := C2_fairness_index_vs_jain [⟨3, 0, 0⟩, ⟨3, 0, 0⟩] 1
    (by decide) (by decide) (by decide) (by decide)
  exact ⟨rep, h1, h3 (by decide)⟩

end HSCL
